import Mathlib

/-!
# Verification of the CTF scoring bot (`botospere.py`)

A shallow embedding of the persistent state and of the handlers of the
scoring bot: the Mongo collections `flags`, `users`, `submissions` become
lists of records, and each handler becomes a pure function from the store
(plus the event's payload) to the updated store and the visible outcome.
Timestamps are naturals, point totals are integers (Mongo `$inc` may drive
them negative).
-/

namespace Botospere

/-- A challenge document in the `flags` collection; `name` is the `_id`. -/
structure Challenge where
  name : String
  flag : String
  points : Int
  postLink : String
  category : String
  level : String
deriving DecidableEq

/-- A user document in the `users` collection; `id` is the `_id`.
`lastCorrect` models the `last_correct_submission` field (absent = `none`). -/
structure UserRec where
  id : Nat
  username : String
  points : Int
  lastCorrect : Option Nat
deriving DecidableEq

/-- A submission document, append-only. -/
structure Submission where
  userId : Nat
  challenge : String
  submittedFlag : String
  correct : Bool
  timestamp : Nat
deriving DecidableEq

/-- The persistent store: the three collections the claims are about. -/
structure DB where
  flags : List Challenge
  users : List UserRec
  submissions : List Submission
deriving DecidableEq

/-- `users.find_one({"_id": uid})`. -/
def findUser (us : List UserRec) (uid : Nat) : Option UserRec :=
  us.find? (fun u => u.id == uid)

/-- `users.update_one({"_id": uid}, ...)`: rewrite the first matching document. -/
def updateUser (uid : Nat) (f : UserRec → UserRec) : List UserRec → List UserRec
  | [] => []
  | u :: us => if u.id == uid then f u :: us else u :: updateUser uid f us

/-- `flags.find_one({"_id": name})`. -/
def findFlag (db : DB) (name : String) : Option Challenge :=
  db.flags.find? (fun f => f.name == name)

/-- The points of the first user document with `_id = uid` in a user list
(0 when absent). -/
def pointsIn (us : List UserRec) (uid : Nat) : Int :=
  match findUser us uid with
  | some u => u.points
  | none => 0

/-- The points of the user document with `_id = uid` (0 when absent). -/
def pointsOf (db : DB) (uid : Nat) : Int := pointsIn db.users uid

/-- The `last_correct_submission` field of the user with `_id = uid`. -/
def lastCorrectOf (db : DB) (uid : Nat) : Option Nat :=
  match findUser db.users uid with
  | some u => u.lastCorrect
  | none => none

/-- A user document with `_id = uid` exists. -/
def userPresent (db : DB) (uid : Nat) : Prop :=
  (findUser db.users uid).isSome = true

/-- Python `str.strip()` on the default whitespace set: drop leading and
trailing whitespace characters. -/
def pyStrip (s : String) : String :=
  ⟨((s.data.dropWhile Char.isWhitespace).reverse.dropWhile Char.isWhitespace).reverse⟩

/-- Outcome of `receive_flag`, as reported to the submitting user. -/
inductive FlagResult where
  | challengeGone
  | flagCorrect (pts : Int)
  | flagWrong
deriving DecidableEq

/-- Shallow embedding of `receive_flag`: look up the challenge (reply and stop
with no write when absent), insert one submission whose `correct` flag is the
equality of the stripped text with the stored flag, and on a correct flag
increment the user's points by the challenge's point value and stamp
`last_correct_submission`. -/
def receive_flag (db : DB) (uid : Nat) (chal : String) (text : String) (now : Nat) :
    DB × FlagResult :=
  let flagText := pyStrip text
  match findFlag db chal with
  | none => (db, .challengeGone)
  | some doc =>
    let correct := flagText == doc.flag
    let pts := doc.points
    let db1 : DB :=
      { db with submissions := db.submissions ++ [⟨uid, chal, flagText, correct, now⟩] }
    if correct then
      ({ db1 with
          users := updateUser uid
            (fun u => { u with points := u.points + pts, lastCorrect := some now })
            db1.users },
        .flagCorrect pts)
    else
      (db1, .flagWrong)

/-- Outcome of `delete_challenge` (the authorization and usage branches sit
outside the store model). -/
inductive DeleteResult where
  | challengeMissing
  | deleted
deriving DecidableEq

/-- `flags.delete_one({"_id": name})`: remove the first matching document. -/
def eraseFlag : List Challenge → String → List Challenge
  | [], _ => []
  | f :: fs, n => if f.name == n then fs else f :: eraseFlag fs n

/-- Shallow embedding of `delete_challenge`: when the challenge exists, for
every correct submission row of that challenge decrement the submitting user's
points by the challenge's stored point value, then delete all submissions of
the challenge, then delete the challenge document. -/
def delete_challenge (db : DB) (name : String) : DB × DeleteResult :=
  match findFlag db name with
  | none => (db, .challengeMissing)
  | some doc =>
    let pts := doc.points
    let correctSubs := db.submissions.filter (fun s => s.challenge == name && s.correct)
    let users1 := correctSubs.foldl
      (fun us s => updateUser s.userId (fun u => { u with points := u.points - pts }) us)
      db.users
    ({ flags := eraseFlag db.flags name
       users := users1
       submissions := db.submissions.filter (fun s => s.challenge != name) },
      .deleted)

/-- Page size of the leaderboard / user-list keyboards (`ITEMS_PER_PAGE`). -/
def itemsPerPageC : Nat := 10

/-- Page size of the submissions log (`SUBMISSIONS_PER_PAGE`). -/
def submissionsPerPageC : Nat := 20

/-- A rendered keyboard page: the windowed items and the two nav controls. -/
structure Menu where
  pageItems : List String
  hasPrev : Bool
  hasNext : Bool
deriving DecidableEq

/-- Shallow embedding of `build_menu`: slice `items[page*per : page*per+per]`,
offer Prev when `page > 0` and Next when `end < len(items)`. -/
def build_menu (items : List String) (page : Nat) (per : Nat) : Menu :=
  let start := page * per
  let stop := start + per
  { pageItems := (items.drop start).take per
    hasPrev := decide (0 < page)
    hasNext := decide (stop < items.length) }

/-- Shallow embedding of the windowing and nav logic of
`build_submissions_message` (page size 20): the rows rendered and the two
nav controls. -/
def build_submissions_message (subsList : List Submission) (page : Nat) :
    List Submission × Bool × Bool :=
  let start := page * submissionsPerPageC
  let stop := start + submissionsPerPageC
  ((subsList.drop start).take submissionsPerPageC,
    decide (0 < page), decide (stop < subsList.length))

/-- C6: for a cached list of length `L`, page size `P` and page index `i`,
the rendered window is the slice `[i*P, i*P+P)`; Prev is offered iff `i > 0`
and Next iff `(i+1)*P < L`; likewise for the submissions log at page size 20. -/
theorem C6_pagination_window (items : List String) (page P : Nat) (subs : List Submission) :
    (build_menu items page P).pageItems = (items.drop (page * P)).take P
    ∧ ((build_menu items page P).hasPrev = true ↔ 0 < page)
    ∧ ((build_menu items page P).hasNext = true ↔ (page + 1) * P < items.length)
    ∧ (build_submissions_message subs page).1
        = (subs.drop (page * submissionsPerPageC)).take submissionsPerPageC
    ∧ ((build_submissions_message subs page).2.1 = true ↔ 0 < page)
    ∧ ((build_submissions_message subs page).2.2 = true
        ↔ (page + 1) * submissionsPerPageC < subs.length) := by
  refine ⟨rfl, ?_, ?_, rfl, ?_, ?_⟩ <;>
    simp [build_menu, build_submissions_message, Nat.succ_mul]

/-- Response to a page-turn callback: either the explicit data-expired
message, or a re-sliced window of the cached snapshot with its nav controls. -/
inductive PageResult (α : Type) where
  | expired (msg : String)
  | page (window : List α) (hasPrev : Bool) (hasNext : Bool)
deriving DecidableEq

/-- Shallow embedding of `leaderboard_page`: fetch `leaderboard_list` from the
session (defaulting to `[]`), answer the explicit error message when it is
empty/absent, otherwise re-slice the cached snapshot. -/
def leaderboard_page (cache : Option (List UserRec)) (page : Nat) : PageResult UserRec :=
  let allUsers := cache.getD []
  if allUsers.isEmpty then
    .expired "Error: Leaderboard data not found. Please run /leaderboard again."
  else
    .page ((allUsers.drop (page * itemsPerPageC)).take itemsPerPageC)
      (decide (0 < page))
      (decide (page * itemsPerPageC + itemsPerPageC < allUsers.length))

/-- Shallow embedding of `viewusers_page`, same shape over `users_list`. -/
def viewusers_page (cache : Option (List UserRec)) (page : Nat) : PageResult UserRec :=
  let allUsers := cache.getD []
  if allUsers.isEmpty then
    .expired "Error: Users data not found. Please run /viewusers again."
  else
    .page ((allUsers.drop (page * itemsPerPageC)).take itemsPerPageC)
      (decide (0 < page))
      (decide (page * itemsPerPageC + itemsPerPageC < allUsers.length))

/-- Shallow embedding of `submissions_page`, over `submissions_list` at page
size 20. -/
def submissions_page (cache : Option (List Submission)) (page : Nat) : PageResult Submission :=
  let allSubs := cache.getD []
  if allSubs.isEmpty then
    .expired "Error: Submissions data not found. Please run /viewsubmissions again."
  else
    .page ((allSubs.drop (page * submissionsPerPageC)).take submissionsPerPageC)
      (decide (0 < page))
      (decide (page * submissionsPerPageC + submissionsPerPageC < allSubs.length))

/-- C7: a page-turn whose session has no cached snapshot answers the explicit
"data not found, re-run the command" message — never a (possibly empty)
page — for the leaderboard, registered-user and submission-audit listings. -/
theorem C7_missing_cache (page : Nat) :
    leaderboard_page none page
      = .expired "Error: Leaderboard data not found. Please run /leaderboard again."
    ∧ viewusers_page none page
      = .expired "Error: Users data not found. Please run /viewusers again."
    ∧ submissions_page none page
      = .expired "Error: Submissions data not found. Please run /viewsubmissions again."
    ∧ (∀ w p n, leaderboard_page none page ≠ PageResult.page w p n)
    ∧ (∀ w p n, viewusers_page none page ≠ PageResult.page w p n)
    ∧ (∀ w p n, submissions_page none page ≠ PageResult.page w p n) := by
  refine ⟨rfl, rfl, rfl, ?_, ?_, ?_⟩ <;> intro w p n h <;>
    simp [leaderboard_page, viewusers_page, submissions_page] at h

/-! ## The Python integer parser and the entry-creation point step -/

/-- Value of an ASCII digit character. -/
def digitVal (c : Char) : Nat := c.toNat - 48

/-- Tail of the digit run of a Python integer literal: plain digits, a single
underscore allowed only between two digits. -/
def pyDigits (acc : Nat) : List Char → Option Nat
  | [] => some acc
  | '_' :: c :: cs => if c.isDigit then pyDigits (acc * 10 + digitVal c) cs else none
  | ['_'] => none
  | c :: cs => if c.isDigit then pyDigits (acc * 10 + digitVal c) cs else none

/-- The digit run of a Python integer literal: nonempty and digit-first. -/
def pyParseNat : List Char → Option Nat
  | [] => none
  | c :: cs => if c.isDigit then pyDigits (digitVal c) cs else none

/-- Python `int(s)` on an already-stripped string: optional sign, then digits
with single underscores between them; `none` models `ValueError`. -/
def pyParseInt (s : String) : Option Int :=
  match s.data with
  | '+' :: rest => (pyParseNat rest).map (fun n => (n : Int))
  | '-' :: rest => (pyParseNat rest).map (fun n => -(n : Int))
  | l => (pyParseNat l).map (fun n => (n : Int))

/-- A value stored in `context.user_data`. -/
inductive Val where
  | vstr (s : String)
  | vint (n : Int)
  | vusers (l : List UserRec)
  | vsubs (l : List Submission)
deriving DecidableEq

/-- `context.user_data`: a Python dict as an association list. -/
abbrev UserData := List (String × Val)

/-- Python dict assignment `ud[k] = v`: replace in place, else append. -/
def udSet : UserData → String → Val → UserData
  | [], k, v => [(k, v)]
  | (k', v') :: rest, k, v =>
      if k' == k then (k', v) :: rest else (k', v') :: udSet rest k v

/-- Python dict read `ud.get(k)`. -/
def udGet : UserData → String → Option Val
  | [], _ => none
  | (k', v) :: rest, k => if k' == k then some v else udGet rest k

/-- Conversation-state constants, `range(8)` in the source. -/
def SELECT_CHALLENGE : Nat := 0

/-- `WAIT_FLAG` conversation state. -/
def WAIT_FLAG : Nat := 1

/-- `AF_CATEGORY` conversation state. -/
def AF_CATEGORY : Nat := 2

/-- `AF_NAME` conversation state. -/
def AF_NAME : Nat := 3

/-- `AF_POINTS` conversation state. -/
def AF_POINTS : Nat := 4

/-- `AF_LINK` conversation state. -/
def AF_LINK : Nat := 5

/-- `AF_LEVEL` conversation state. -/
def AF_LEVEL : Nat := 6

/-- `AF_FLAG` conversation state. -/
def AF_FLAG : Nat := 7

/-- Shallow embedding of `af_points`: parse the stripped text as a Python
int; on `ValueError` re-prompt and stay in `AF_POINTS` with the step data
untouched, otherwise store the parsed value under `"af_points"` and advance
to `AF_LINK`. -/
def af_points (ud : UserData) (text : String) : UserData × Nat :=
  match pyParseInt (pyStrip text) with
  | none => (ud, AF_POINTS)
  | some n => (udSet ud "af_points" (.vint n), AF_LINK)

theorem udGet_udSet_self (ud : UserData) (k : String) (v : Val) :
    udGet (udSet ud k v) k = some v := by
  induction ud with
  | nil => simp [udSet, udGet]
  | cons p rest ih =>
    obtain ⟨k', v'⟩ := p
    by_cases h : k' = k
    · subst h
      simp [udSet, udGet]
    · simpa [udSet, udGet, beq_iff_eq, h] using ih

theorem udGet_udSet_other (ud : UserData) (k k' : String) (v : Val) (h : k' ≠ k) :
    udGet (udSet ud k v) k' = udGet ud k' := by
  have h2 : k ≠ k' := Ne.symm h
  induction ud with
  | nil => simp [udSet, udGet, beq_iff_eq, h2]
  | cons p rest ih =>
    obtain ⟨kk, vv⟩ := p
    by_cases hk : kk = k
    · subst hk
      simp [udSet, udGet, beq_iff_eq, h2]
    · by_cases hk' : kk = k'
      · subst hk'
        simp [udSet, udGet, beq_iff_eq, hk]
      · simpa [udSet, udGet, beq_iff_eq, hk, hk'] using ih

/-- C9: in the point-value step, an input that fails Python int-parsing
re-prompts the same step (`AF_POINTS`) with no value stored and the step data
untouched; an input that parses stores the parsed value under `"af_points"`
(leaving every other key unchanged) and advances to `AF_LINK`. -/
theorem C9_points_step (ud : UserData) (text : String) :
    (pyParseInt (pyStrip text) = none → af_points ud text = (ud, AF_POINTS))
    ∧ ∀ n, pyParseInt (pyStrip text) = some n →
        (af_points ud text).2 = AF_LINK
        ∧ udGet (af_points ud text).1 "af_points" = some (.vint n)
        ∧ ∀ k, k ≠ "af_points" → udGet (af_points ud text).1 k = udGet ud k := by
  constructor
  · intro h
    simp [af_points, h]
  · intro n h
    refine ⟨by simp [af_points, h], ?_, ?_⟩
    · simp [af_points, h, udGet_udSet_self]
    · intro k hk
      simp [af_points, h, udGet_udSet_other ud "af_points" k (Val.vint n) hk]

/-- Concrete instance of the point-value step: `"12a"` fails to parse and
re-prompts with nothing stored; `" 42 "` parses to 42, is stored and the flow
advances. -/
theorem C9_points_step_witness :
    af_points [] "12a" = ([], AF_POINTS)
    ∧ (af_points [] " 42 ").2 = AF_LINK
    ∧ udGet (af_points [] " 42 ").1 "af_points" = some (.vint 42) := by
  refine ⟨(C9_points_step [] "12a").1 (by decide), ?_, ?_⟩
  · exact ((C9_points_step [] " 42 ").2 42 (by decide)).1
  · exact ((C9_points_step [] " 42 ").2 42 (by decide)).2.1

/-! ## Cancellation -/

/-- Per-user session: the active conversation state (if any) plus
`context.user_data`. `ConversationHandler.END` drops only the former;
`user_data` persists across conversations. -/
structure Session where
  conv : Option Nat
  userData : UserData
deriving DecidableEq

/-- The store plus one user's session. -/
structure BotState where
  db : DB
  session : Session
deriving DecidableEq

/-- Shallow embedding of `cancel`: reply with the cancellation notice and
return `ConversationHandler.END`; the conversation machinery forgets the
active state and nothing else runs. -/
def cancel (st : BotState) : BotState :=
  { st with session := { st.session with conv := none } }

/-- A session in the middle of the entry-creation flow, four steps in. -/
def c8State : BotState :=
  { db := { flags := [], users := [], submissions := [] }
    session :=
      { conv := some AF_LEVEL
        userData := [("af_category", .vstr "Web"), ("af_name", .vstr "X"),
                     ("af_points", .vint 50), ("af_link", .vstr "L")] } }

/-- C8 fails on the code: cancelling mid-flow leaves the accumulated step
data in the session — `"af_name"` is still readable afterwards and the step
data is not cleared. -/
theorem C8_cancel_counterexample :
    (cancel c8State).session.userData = c8State.session.userData
    ∧ udGet (cancel c8State).session.userData "af_name" = some (.vstr "X")
    ∧ (cancel c8State).session.userData ≠ [] := by
  refine ⟨rfl, by decide, by decide⟩

/-- C8 amended: a cancellation event in any state terminates the flow
immediately (the active conversation state is dropped) and the Catalog and
Ledger are unmodified, but the session's accumulated step data persists
unchanged rather than being cleared. -/
theorem C8_cancel_frame (st : BotState) :
    (cancel st).db = st.db
    ∧ (cancel st).session.conv = none
    ∧ (cancel st).session.userData = st.session.userData :=
  ⟨rfl, rfl, rfl⟩

/-! ## Ledger lemmas -/

theorem findUser_updateUser (uid uid' : Nat) (f : UserRec → UserRec)
    (hid : ∀ u, (f u).id = u.id) (us : List UserRec) :
    findUser (updateUser uid f us) uid'
      = if uid' = uid then (findUser us uid).map f else findUser us uid' := by
  induction us with
  | nil => by_cases h : uid' = uid <;> simp [findUser, updateUser, h]
  | cons u rest ih =>
    by_cases hu : u.id = uid
    · by_cases h : uid' = uid
      · subst h
        simp [findUser, updateUser, beq_iff_eq, hu, hid]
      · have hne : uid ≠ uid' := fun he => h he.symm
        simp [findUser, updateUser, beq_iff_eq, hu, hid, h, hne]
    · by_cases hh : u.id = uid'
      · have h : uid' ≠ uid := fun he => hu (hh.trans he)
        simp [findUser, updateUser, beq_iff_eq, hu, hh, h]
      · by_cases h : uid' = uid <;>
          simpa [findUser, updateUser, beq_iff_eq, hu, hh, h] using ih

theorem userPresent_update (uid uid' : Nat) (f : UserRec → UserRec)
    (hid : ∀ u, (f u).id = u.id) (us : List UserRec) :
    (findUser (updateUser uid f us) uid').isSome = (findUser us uid').isSome := by
  rw [findUser_updateUser uid uid' f hid us]
  by_cases h : uid' = uid <;> simp [h]

/-- C2: `receive_flag` on an absent challenge reports not-found and writes
nothing; on a present challenge it appends exactly one submission whose
correctness flag is the case-sensitive equality of the stripped text with the
stored secret, leaves the catalog unchanged, increments the submitting user's
points by the challenge's point value and stamps the scoring timestamp
exactly when the flag is correct, and logs the wrong attempt (points and
users untouched) otherwise. -/
theorem C2_recordAttempt (db : DB) (uid : Nat) (chal text : String) (now : Nat) :
    (findFlag db chal = none → receive_flag db uid chal text now = (db, .challengeGone))
    ∧ ∀ doc, findFlag db chal = some doc →
        (∃ sub : Submission,
          (receive_flag db uid chal text now).1.submissions = db.submissions ++ [sub]
          ∧ sub.userId = uid ∧ sub.challenge = chal ∧ sub.submittedFlag = pyStrip text
          ∧ (sub.correct = true ↔ pyStrip text = doc.flag) ∧ sub.timestamp = now)
        ∧ (receive_flag db uid chal text now).1.flags = db.flags
        ∧ (pyStrip text = doc.flag →
            (receive_flag db uid chal text now).2 = .flagCorrect doc.points
            ∧ (userPresent db uid →
                pointsOf (receive_flag db uid chal text now).1 uid
                  = pointsOf db uid + doc.points
                ∧ lastCorrectOf (receive_flag db uid chal text now).1 uid = some now))
        ∧ (pyStrip text ≠ doc.flag →
            (receive_flag db uid chal text now).1.users = db.users
            ∧ (receive_flag db uid chal text now).2 = .flagWrong)
        ∧ (∀ uid', uid' ≠ uid →
            pointsOf (receive_flag db uid chal text now).1 uid' = pointsOf db uid') := by
  constructor
  · intro h
    simp [receive_flag, h]
  · intro doc hdoc
    by_cases hc : pyStrip text = doc.flag
    · have hbeq : (pyStrip text == doc.flag) = true := by simpa [beq_iff_eq] using hc
      refine ⟨⟨⟨uid, chal, pyStrip text, pyStrip text == doc.flag, now⟩, ?_, rfl, rfl, rfl,
          by simp [beq_iff_eq], rfl⟩, ?_, ?_, ?_, ?_⟩
      · simp [receive_flag, hdoc, hbeq]
      · simp [receive_flag, hdoc, hbeq]
      · intro _
        refine ⟨by simp [receive_flag, hdoc, hbeq], ?_⟩
        intro hpres
        simp only [userPresent] at hpres
        obtain ⟨u, hu⟩ := Option.isSome_iff_exists.mp hpres
        constructor
        · simp only [receive_flag, hdoc, hbeq, if_pos, pointsOf, pointsIn]
          rw [findUser_updateUser uid uid
            (fun u => { u with points := u.points + doc.points, lastCorrect := some now })
            (fun u => rfl)]
          simp [hu]
        · simp only [receive_flag, hdoc, hbeq, if_pos, lastCorrectOf]
          rw [findUser_updateUser uid uid
            (fun u => { u with points := u.points + doc.points, lastCorrect := some now })
            (fun u => rfl)]
          simp [hu]
      · intro hne
        exact absurd hc hne
      · intro uid' hne
        simp only [receive_flag, hdoc, hbeq, if_pos, pointsOf, pointsIn]
        rw [findUser_updateUser uid uid'
          (fun u => { u with points := u.points + doc.points, lastCorrect := some now })
          (fun u => rfl)]
        simp [hne]
    · have hbeq : (pyStrip text == doc.flag) = false := by simpa [beq_iff_eq] using hc
      refine ⟨⟨⟨uid, chal, pyStrip text, pyStrip text == doc.flag, now⟩, ?_, rfl, rfl, rfl,
          by simp [beq_iff_eq], rfl⟩, ?_, ?_, ?_, ?_⟩
      · simp [receive_flag, hdoc, hbeq]
      · simp [receive_flag, hdoc, hbeq]
      · intro hcc
        exact absurd hcc hc
      · intro _
        exact ⟨by simp [receive_flag, hdoc, hbeq], by simp [receive_flag, hdoc, hbeq]⟩
      · intro uid' _
        simp [receive_flag, hdoc, hbeq, pointsOf, pointsIn]

/-- A one-challenge, one-user store used to instantiate the ledger claims. -/
def c2db : DB :=
  { flags := [⟨"web1", "FLAG", 100, "L", "Web", "Easy"⟩]
    users := [⟨7, "alice", 0, none⟩]
    submissions := [] }

/-- Concrete instance of C2: an unknown challenge leaves the store untouched,
and a correct (whitespace-padded) flag raises the submitter to 100 points. -/
theorem C2_recordAttempt_witness :
    receive_flag c2db 7 "nope" "x" 5 = (c2db, .challengeGone)
    ∧ pointsOf (receive_flag c2db 7 "web1" " FLAG " 5).1 7 = 100
    ∧ lastCorrectOf (receive_flag c2db 7 "web1" " FLAG " 5).1 7 = some 5 := by
  have hpres : userPresent c2db 7 := by unfold userPresent; decide
  have h2 := ((C2_recordAttempt c2db 7 "web1" " FLAG " 5).2
      ⟨"web1", "FLAG", 100, "L", "Web", "Easy"⟩ (by decide)).2.2.1 (by decide)
  refine ⟨(C2_recordAttempt c2db 7 "nope" "x" 5).1 (by decide), ?_, (h2.2 hpres).2⟩
  exact ((h2.2 hpres).1).trans (by decide)

theorem pointsIn_updateUser (uid uid' : Nat) (f : UserRec → UserRec)
    (hid : ∀ u, (f u).id = u.id) (us : List UserRec) :
    pointsIn (updateUser uid f us) uid'
      = if uid' = uid then
          (match findUser us uid with
            | some u => (f u).points
            | none => 0)
        else pointsIn us uid' := by
  unfold pointsIn
  rw [findUser_updateUser uid uid' f hid us]
  by_cases h : uid' = uid
  · subst h
    cases findUser us uid' <;> simp
  · simp [h]

/-- Effect of the decrement loop of `delete_challenge` on one user's points:
the user loses `pts` once per row of `subs` carrying their id. -/
theorem pointsIn_foldDec (pts : Int) (subs : List Submission) (us : List UserRec) (uid : Nat)
    (hpres : (findUser us uid).isSome = true) :
    pointsIn (subs.foldl (fun acc s =>
        updateUser s.userId (fun u => { u with points := u.points - pts }) acc) us) uid
      = pointsIn us uid - pts * (subs.countP (fun s => s.userId == uid)) := by
  induction subs generalizing us with
  | nil => simp
  | cons s rest ih =>
    have hpres' : (findUser (updateUser s.userId
        (fun u => { u with points := u.points - pts }) us) uid).isSome = true := by
      rw [userPresent_update s.userId uid
        (fun u => { u with points := u.points - pts }) (fun u => rfl) us]
      exact hpres
    rw [List.foldl_cons, ih _ hpres',
      pointsIn_updateUser s.userId uid
        (fun u => { u with points := u.points - pts }) (fun u => rfl) us]
    by_cases h : uid = s.userId
    · obtain ⟨u, hu⟩ := Option.isSome_iff_exists.mp hpres
      subst h
      simp only [if_pos rfl, hu, pointsIn, List.countP_cons, beq_self_eq_true,
        if_true]
      push_cast
      ring
    · have hne : (s.userId == uid) = false := by
        simpa [beq_iff_eq] using fun he => h he.symm
      simp only [if_neg h, List.countP_cons, hne, if_false]
      push_cast
      ring

/-- The points formula of `delete_challenge`: an existing user loses the
challenge's stored point value once per correct submission row of theirs for
that challenge. -/
theorem delete_pointsFormula (db : DB) (name : String) (doc : Challenge) (uid : Nat)
    (hdoc : findFlag db name = some doc) (hpres : userPresent db uid) :
    pointsOf (delete_challenge db name).1 uid
      = pointsOf db uid
        - doc.points * (db.submissions.countP
            (fun s => s.userId == uid && (s.challenge == name && s.correct))) := by
  simp only [delete_challenge, hdoc, pointsOf]
  rw [pointsIn_foldDec doc.points
      (db.submissions.filter (fun s => s.challenge == name && s.correct)) db.users uid hpres,
    List.countP_filter]

/-- C10: `delete_challenge` decrements once per correct submission row — a
user with `k` correct rows for the challenge loses `k` times the point value
stored at deletion time. -/
theorem C10_delete_per_row (db : DB) (name : String) (doc : Challenge) (uid : Nat)
    (hdoc : findFlag db name = some doc) (hpres : userPresent db uid) :
    pointsOf (delete_challenge db name).1 uid
      = pointsOf db uid
        - doc.points * (db.submissions.countP
            (fun s => s.userId == uid && (s.challenge == name && s.correct))) :=
  delete_pointsFormula db name doc uid hdoc hpres

/-- A store where user 1 holds 10 points from an old award but challenge `A`
is now stored at 100 points and carries two correct rows for user 1. -/
def c10db : DB :=
  { flags := [⟨"A", "f", 100, "L", "Web", "Easy"⟩]
    users := [⟨1, "bob", 10, some 2⟩]
    submissions := [⟨1, "A", "f", true, 1⟩, ⟨1, "A", "f", true, 2⟩] }

/-- Concrete instance of C10: deleting `A` charges 100 points twice against a
10-point balance, leaving the user at -190 — below zero and below anything
they earned. -/
theorem C10_delete_per_row_witness :
    pointsOf (delete_challenge c10db "A").1 1 = -190
    ∧ pointsOf (delete_challenge c10db "A").1 1 < 0 := by
  have h := C10_delete_per_row c10db "A" ⟨"A", "f", 100, "L", "Web", "Easy"⟩ 1
    (by decide) (by unfold userPresent; decide)
  have h2 : pointsOf (delete_challenge c10db "A").1 1 = -190 := h.trans (by decide)
  exact ⟨h2, by rw [h2]; decide⟩

/-- The user `uid` has at least one correct submission for `name` among
`subs` (the membership test behind the cascade and the solver lists). -/
def solvedChal (subs : List Submission) (uid : Nat) (name : String) : Bool :=
  subs.any (fun s => s.userId == uid && (s.challenge == name && s.correct))

theorem eraseFlag_eq_filter (fs : List Challenge) (name : String)
    (hnodup : (fs.map (fun f => f.name)).Nodup) :
    eraseFlag fs name = fs.filter (fun f => f.name != name) := by
  induction fs with
  | nil => rfl
  | cons f rest ih =>
    simp only [List.map_cons, List.nodup_cons] at hnodup
    by_cases h : f.name = name
    · subst h
      have hrest : rest.filter (fun g => g.name != f.name) = rest := by
        refine List.filter_eq_self.mpr (fun g hg => ?_)
        have : g.name ≠ f.name := fun he => hnodup.1 (he ▸ List.mem_map_of_mem _ hg)
        simpa [bne_iff_ne] using this
      simp [eraseFlag, hrest]
    · simp [eraseFlag, beq_iff_eq, h, bne_iff_ne, Ne.symm, ih hnodup.2,
        fun hh : f.name = name => h hh]

/-- C3: deleting an existing challenge whose solvers each hold exactly one
correct row decrements each solver's points by the stored point value exactly
once, leaves every non-solver's points alone, deletes every submission of the
challenge (correct or not) and removes the challenge document. -/
theorem C3_reverseChallenge (db : DB) (name : String) (doc : Challenge)
    (hdoc : findFlag db name = some doc)
    (hflags : (db.flags.map (fun f => f.name)).Nodup)
    (honce : ∀ uid, db.submissions.countP
        (fun s => s.userId == uid && (s.challenge == name && s.correct)) ≤ 1) :
    (∀ uid, userPresent db uid → solvedChal db.submissions uid name = true →
        pointsOf (delete_challenge db name).1 uid = pointsOf db uid - doc.points)
    ∧ (∀ uid, userPresent db uid → solvedChal db.submissions uid name = false →
        pointsOf (delete_challenge db name).1 uid = pointsOf db uid)
    ∧ (delete_challenge db name).1.submissions
        = db.submissions.filter (fun s => s.challenge != name)
    ∧ (delete_challenge db name).1.flags = db.flags.filter (fun f => f.name != name)
    ∧ findFlag (delete_challenge db name).1 name = none
    ∧ (delete_challenge db name).2 = .deleted := by
  have hflagsOut : (delete_challenge db name).1.flags
      = db.flags.filter (fun f => f.name != name) := by
    simp only [delete_challenge, hdoc]
    exact eraseFlag_eq_filter db.flags name hflags
  refine ⟨?_, ?_, by simp [delete_challenge, hdoc], hflagsOut, ?_, by simp [delete_challenge, hdoc]⟩
  · intro uid hpres hsolved
    have hcount : db.submissions.countP
        (fun s => s.userId == uid && (s.challenge == name && s.correct)) = 1 := by
      have hpos : 0 < db.submissions.countP
          (fun s => s.userId == uid && (s.challenge == name && s.correct)) := by
        rw [List.countP_pos_iff]
        simpa [solvedChal, List.any_eq_true] using hsolved
      have h1 := honce uid
      omega
    rw [delete_pointsFormula db name doc uid hdoc hpres, hcount]
    ring
  · intro uid hpres hnone
    have hcount : db.submissions.countP
        (fun s => s.userId == uid && (s.challenge == name && s.correct)) = 0 := by
      rw [List.countP_eq_zero]
      intro s hs hp
      have : solvedChal db.submissions uid name = true := by
        rw [solvedChal, List.any_eq_true]
        exact ⟨s, hs, hp⟩
      simp [this] at hnone
    rw [delete_pointsFormula db name doc uid hdoc hpres, hcount]
    ring
  · rw [findFlag, hflagsOut]
    rw [List.find?_eq_none]
    intro f hf
    have := (List.mem_filter.mp hf).2
    simpa [beq_iff_eq, bne_iff_ne] using this

/-- A per-row once-only bound extends to all user ids. -/
theorem countP_le_one_of_each (subs : List Submission) (name : String)
    (h : ∀ s ∈ subs, subs.countP
        (fun t => t.userId == s.userId && (t.challenge == name && t.correct)) ≤ 1) :
    ∀ uid, subs.countP (fun t => t.userId == uid && (t.challenge == name && t.correct)) ≤ 1 := by
  intro uid
  by_cases hc : subs.countP
      (fun t => t.userId == uid && (t.challenge == name && t.correct)) = 0
  · omega
  · have hpos := Nat.pos_of_ne_zero hc
    rw [List.countP_pos_iff] at hpos
    obtain ⟨s, hs, hp⟩ := hpos
    have huid : s.userId = uid := by
      have := ((Bool.and_eq_true _ _).mp hp).1
      simpa [beq_iff_eq] using this
    rw [← huid]
    exact h s hs

/-- A store where challenge "X" (50 points) has three distinct solvers with
one correct row each, one wrong attempt by user 4, and user 1 also solved
"Y". -/
def c3db : DB :=
  { flags := [⟨"X", "fx", 50, "L", "Web", "Easy"⟩, ⟨"Y", "fy", 20, "L", "Web", "Easy"⟩]
    users := [⟨1, "p", 70, some 4⟩, ⟨2, "q", 50, some 2⟩, ⟨3, "r", 50, some 3⟩,
              ⟨4, "s", 0, none⟩]
    submissions := [⟨1, "X", "fx", true, 1⟩, ⟨2, "X", "fx", true, 2⟩, ⟨3, "X", "fx", true, 3⟩,
                    ⟨1, "Y", "fy", true, 4⟩, ⟨4, "X", "bad", false, 5⟩] }

/-- Concrete instance of C3: deleting "X" charges each of its three solvers
50 points exactly once, leaves the non-solver alone, removes every "X"
submission (the wrong one included) and removes the challenge record. -/
theorem C3_reverseChallenge_witness :
    pointsOf (delete_challenge c3db "X").1 1 = 20
    ∧ pointsOf (delete_challenge c3db "X").1 2 = 0
    ∧ pointsOf (delete_challenge c3db "X").1 3 = 0
    ∧ pointsOf (delete_challenge c3db "X").1 4 = 0
    ∧ (delete_challenge c3db "X").1.submissions = [⟨1, "Y", "fy", true, 4⟩]
    ∧ findFlag (delete_challenge c3db "X").1 "X" = none := by
  have h := C3_reverseChallenge c3db "X" ⟨"X", "fx", 50, "L", "Web", "Easy"⟩
    (by decide) (by decide) (countP_le_one_of_each c3db.submissions "X" (by decide))
  refine ⟨?_, ?_, ?_, ?_, h.2.2.1.trans (by decide), h.2.2.2.2.1⟩
  · exact (h.1 1 (by unfold userPresent; decide) (by decide)).trans (by decide)
  · exact (h.1 2 (by unfold userPresent; decide) (by decide)).trans (by decide)
  · exact (h.1 3 (by unfold userPresent; decide) (by decide)).trans (by decide)
  · exact (h.2.1 4 (by unfold userPresent; decide) (by decide)).trans (by decide)

/-! ## The scoring invariant -/

/-- The sum of the stored point values of the challenges for which `uid` has
at least one correct submission. -/
def solvedSum (db : DB) (uid : Nat) : Int :=
  ((db.flags.filter (fun f => solvedChal db.submissions uid f.name)).map
    (fun f => f.points)).sum

/-- The scoring invariant: every registered user's denormalized points total
equals the sum of the point values of the challenges they have solved. -/
def ScoreInv (db : DB) : Prop :=
  ∀ uid ∈ db.users.map (fun u => u.id), pointsOf db uid = solvedSum db uid

theorem updateUser_map_id (uid : Nat) (f : UserRec → UserRec)
    (hid : ∀ u, (f u).id = u.id) (us : List UserRec) :
    (updateUser uid f us).map (fun u => u.id) = us.map (fun u => u.id) := by
  induction us with
  | nil => rfl
  | cons u rest ih =>
    by_cases h : u.id = uid
    · simp [updateUser, beq_iff_eq, h, hid]
    · simp [updateUser, beq_iff_eq, h, ih]

theorem foldDec_map_id (pts : Int) (subs : List Submission) (us : List UserRec) :
    ((subs.foldl (fun acc s =>
        updateUser s.userId (fun u => { u with points := u.points - pts }) acc) us).map
      (fun u => u.id)) = us.map (fun u => u.id) := by
  induction subs generalizing us with
  | nil => rfl
  | cons s rest ih =>
    rw [List.foldl_cons, ih,
      updateUser_map_id s.userId (fun u => { u with points := u.points - pts }) (fun u => rfl)]

theorem findUser_isSome_of_mem (us : List UserRec) (uid : Nat)
    (h : uid ∈ us.map (fun u => u.id)) : (findUser us uid).isSome = true := by
  rw [findUser, List.find?_isSome]
  obtain ⟨u, hu, hid⟩ := List.mem_map.mp h
  exact ⟨u, hu, by simp [hid]⟩

/-- Turning one challenge from unsolved to solved adds exactly the points of
the documents carrying its name to the solved sum. -/
theorem sum_filter_flip (l : List Challenge) (chal : String) (oldP newP : String → Bool)
    (hagree : ∀ c, c ≠ chal → newP c = oldP c)
    (hnew : newP chal = true) (hold : oldP chal = false) :
    ((l.filter (fun f => newP f.name)).map (fun f => f.points)).sum
      = ((l.filter (fun f => oldP f.name)).map (fun f => f.points)).sum
        + ((l.filter (fun f => f.name == chal)).map (fun f => f.points)).sum := by
  induction l with
  | nil => simp
  | cons f rest ih =>
    by_cases h : f.name = chal
    · rw [List.filter_cons, List.filter_cons, List.filter_cons]
      simp only [h, hnew, hold, beq_self_eq_true, if_true, if_false,
        Bool.false_eq_true, List.map_cons, List.sum_cons]
      rw [ih]
      ring
    · have h1 := hagree f.name h
      have hb : (f.name == chal) = false := by simpa [beq_iff_eq] using h
      rw [List.filter_cons, List.filter_cons, List.filter_cons]
      by_cases h2 : oldP f.name = true
      · simp only [h1, h2, hb, if_true, if_false, Bool.false_eq_true,
          List.map_cons, List.sum_cons]
        rw [ih]
        ring
      · have h2' : oldP f.name = false := by simpa using h2
        simp only [h1, h2', hb, if_false, Bool.false_eq_true]
        exact ih

/-- Removing the documents named `chal` subtracts their contribution from a
filtered points sum. -/
theorem sum_filter_drop (l : List Challenge) (chal : String) (p : String → Bool) :
    (((l.filter (fun f => f.name != chal)).filter (fun f => p f.name)).map
        (fun f => f.points)).sum
      = ((l.filter (fun f => p f.name)).map (fun f => f.points)).sum
        - (((l.filter (fun f => f.name == chal)).filter (fun f => p f.name)).map
            (fun f => f.points)).sum := by
  induction l with
  | nil => simp
  | cons f rest ih =>
    by_cases h : f.name = chal
    · have hb : (f.name == chal) = true := by simpa [beq_iff_eq] using h
      have hbn : (f.name != chal) = false := by simpa [bne_iff_ne] using h
      by_cases hp : p f.name = true
      · simp only [List.filter_cons, hb, hbn, hp, if_true, if_false, Bool.false_eq_true,
          List.map_cons, List.sum_cons]
        rw [ih]
        ring
      · have hp' : p f.name = false := by simpa using hp
        simp only [List.filter_cons, hb, hbn, hp', if_true, if_false, Bool.false_eq_true]
        exact ih
    · have hb : (f.name == chal) = false := by simpa [beq_iff_eq] using h
      have hbn : (f.name != chal) = true := by simpa [bne_iff_ne] using h
      by_cases hp : p f.name = true
      · simp only [List.filter_cons, hb, hbn, hp, if_true, if_false, Bool.false_eq_true,
          List.map_cons, List.sum_cons]
        rw [ih]
        ring
      · have hp' : p f.name = false := by simpa using hp
        simp only [List.filter_cons, hb, hbn, hp', if_true, if_false, Bool.false_eq_true]
        exact ih

/-- With unique names, the documents named like the found one are exactly it. -/
theorem filter_name_eq_of_find (l : List Challenge) (chal : String) (doc : Challenge)
    (hnodup : (l.map (fun f => f.name)).Nodup)
    (hfind : l.find? (fun f => f.name == chal) = some doc) :
    l.filter (fun f => f.name == chal) = [doc] := by
  induction l with
  | nil => simp at hfind
  | cons f rest ih =>
    simp only [List.map_cons, List.nodup_cons] at hnodup
    by_cases h : f.name = chal
    · have hb : (f.name == chal) = true := by simpa [beq_iff_eq] using h
      rw [List.find?_cons_of_pos rest hb] at hfind
      have hdoc : f = doc := by simpa using hfind
      subst hdoc
      have hrest : rest.filter (fun g => g.name == chal) = [] := by
        rw [List.filter_eq_nil_iff]
        intro g hg
        have : g.name ≠ f.name := fun he => hnodup.1 (he ▸ List.mem_map_of_mem _ hg)
        simpa [beq_iff_eq, h] using fun he : g.name = chal => this (he.trans h.symm)
      simp [List.filter_cons, hb, hrest]
    · have hb : (f.name == chal) = false := by simpa [beq_iff_eq] using h
      rw [List.find?_cons_of_neg rest (by simp [hb])] at hfind
      simp only [List.filter_cons, hb, Bool.false_eq_true, if_false]
      exact ih hnodup.2 hfind

theorem solvedChal_append (subs : List Submission) (s : Submission) (uid : Nat) (c : String) :
    solvedChal (subs ++ [s]) uid c
      = (solvedChal subs uid c || (s.userId == uid && (s.challenge == c && s.correct))) := by
  simp [solvedChal, List.any_append]

/-- Deleting the submissions of one challenge does not change whether any
other challenge counts as solved. -/
theorem solvedChal_filter_ne (subs : List Submission) (uid : Nat) (name c : String)
    (h : c ≠ name) :
    solvedChal (subs.filter (fun s => s.challenge != name)) uid c
      = solvedChal subs uid c := by
  rw [solvedChal, List.any_filter, solvedChal]
  have hpt : ∀ s : Submission,
      ((s.challenge != name) && (s.userId == uid && (s.challenge == c && s.correct)))
        = (s.userId == uid && (s.challenge == c && s.correct)) := by
    intro s
    by_cases hc : s.challenge = c
    · have : (s.challenge != name) = true := by
        simpa [bne_iff_ne, hc] using h
      simp [this]
    · have : (s.challenge == c) = false := by simpa [beq_iff_eq] using hc
      simp [this]
  simp only [hpt]

/-- C1 amended: preservation of the scoring invariant under explicit side
conditions. From a store with unique challenge names that satisfies
`points = sum of solved point values` for every registered user, a
`receive_flag` call by a registered user on a challenge they have not
already solved preserves the invariant, and so does a fully-completed
`delete_challenge` call when every user holds at most one correct submission
row per challenge. The side conditions mirror the intended flow (the
`/submit` keyboard lists only unsolved challenges) but are not enforced by
`receive_flag` itself — a stale keyboard replay defeats them, see the
counterexample. -/
theorem C1_points_invariant (db : DB) (hflags : (db.flags.map (fun f => f.name)).Nodup)
    (hinv : ScoreInv db) :
    (∀ uid chal text now, userPresent db uid →
        solvedChal db.submissions uid chal = false →
        ScoreInv (receive_flag db uid chal text now).1)
    ∧ (∀ name, (∀ uid2, db.submissions.countP
          (fun s => s.userId == uid2 && (s.challenge == name && s.correct)) ≤ 1) →
        ScoreInv (delete_challenge db name).1) := by
  constructor
  · intro uid chal text now hpres hnot
    cases hdoc : findFlag db chal with
    | none =>
      have he : (receive_flag db uid chal text now).1 = db := by
        simp [receive_flag, hdoc]
      rw [he]
      exact hinv
    | some doc =>
      have hfind : db.flags.find? (fun f => f.name == chal) = some doc := hdoc
      by_cases hcorr : (pyStrip text == doc.flag) = true
      · have hus : (receive_flag db uid chal text now).1.users
            = updateUser uid (fun u =>
                { u with points := u.points + doc.points, lastCorrect := some now })
              db.users := by
          simp [receive_flag, hdoc, hcorr]
        have hfl : (receive_flag db uid chal text now).1.flags = db.flags := by
          simp [receive_flag, hdoc, hcorr]
        have hsub : (receive_flag db uid chal text now).1.submissions
            = db.submissions ++ [⟨uid, chal, pyStrip text, pyStrip text == doc.flag, now⟩] := by
          simp [receive_flag, hdoc, hcorr]
        unfold ScoreInv
        intro uid' hmem
        rw [hus, updateUser_map_id uid (fun u =>
          { u with points := u.points + doc.points, lastCorrect := some now })
          (fun u => rfl)] at hmem
        simp only [pointsOf, solvedSum]
        rw [hus, hfl, hsub,
          pointsIn_updateUser uid uid' (fun u =>
            { u with points := u.points + doc.points, lastCorrect := some now })
            (fun u => rfl) db.users]
        by_cases h' : uid' = uid
        · subst h'
          simp only [userPresent] at hpres
          obtain ⟨u, hu⟩ := Option.isSome_iff_exists.mp hpres
          have hflip : ((db.flags.filter (fun f =>
              solvedChal (db.submissions
                ++ [⟨uid', chal, pyStrip text, pyStrip text == doc.flag, now⟩]) uid' f.name)).map
                (fun f => f.points)).sum
              = ((db.flags.filter (fun f => solvedChal db.submissions uid' f.name)).map
                  (fun f => f.points)).sum
                + ((db.flags.filter (fun f => f.name == chal)).map (fun f => f.points)).sum := by
            refine sum_filter_flip db.flags chal
              (fun c => solvedChal db.submissions uid' c)
              (fun c => solvedChal (db.submissions
                ++ [⟨uid', chal, pyStrip text, pyStrip text == doc.flag, now⟩]) uid' c)
              ?_ ?_ hnot
            · intro c hc
              dsimp only
              rw [solvedChal_append]
              have : (chal == c) = false := by
                simpa [beq_iff_eq] using fun he : chal = c => hc he.symm
              simp [this]
            · dsimp only
              rw [solvedChal_append]
              simp [hcorr]
          rw [hflip, filter_name_eq_of_find db.flags chal doc hflags hfind, if_pos rfl, hu]
          have hbase := hinv uid' hmem
          simp only [pointsOf, pointsIn, solvedSum] at hbase
          rw [hu] at hbase
          dsimp only at hbase ⊢
          rw [hbase]
          simp
        · have hcong : ∀ f ∈ db.flags,
              solvedChal (db.submissions
                ++ [⟨uid, chal, pyStrip text, pyStrip text == doc.flag, now⟩]) uid' f.name
              = solvedChal db.submissions uid' f.name := by
            intro f _
            rw [solvedChal_append]
            have : (uid == uid') = false := by
              simpa [beq_iff_eq] using fun he : uid = uid' => h' he.symm
            simp [this]
          rw [List.filter_congr hcong, if_neg h']
          have hbase := hinv uid' hmem
          simp only [pointsOf, solvedSum] at hbase
          exact hbase
      · have hcorr' : (pyStrip text == doc.flag) = false := by
          simpa using hcorr
        have hus : (receive_flag db uid chal text now).1.users = db.users := by
          simp [receive_flag, hdoc, hcorr']
        have hfl : (receive_flag db uid chal text now).1.flags = db.flags := by
          simp [receive_flag, hdoc, hcorr']
        have hsub : (receive_flag db uid chal text now).1.submissions
            = db.submissions ++ [⟨uid, chal, pyStrip text, pyStrip text == doc.flag, now⟩] := by
          simp [receive_flag, hdoc, hcorr']
        unfold ScoreInv
        intro uid' hmem
        rw [hus] at hmem
        simp only [pointsOf, solvedSum]
        rw [hus, hfl, hsub]
        have hcong : ∀ f ∈ db.flags,
            solvedChal (db.submissions
              ++ [⟨uid, chal, pyStrip text, pyStrip text == doc.flag, now⟩]) uid' f.name
            = solvedChal db.submissions uid' f.name := by
          intro f _
          rw [solvedChal_append]
          simp [hcorr']
        rw [List.filter_congr hcong]
        have hbase := hinv uid' hmem
        simp only [pointsOf, solvedSum] at hbase
        exact hbase
  · intro name honce
    cases hdoc : findFlag db name with
    | none =>
      have he : (delete_challenge db name).1 = db := by
        simp [delete_challenge, hdoc]
      rw [he]
      exact hinv
    | some doc =>
      have hfind : db.flags.find? (fun f => f.name == name) = some doc := hdoc
      have hdn : doc.name = name := by
        simpa [beq_iff_eq] using List.find?_some hfind
      have hus : (delete_challenge db name).1.users
          = (db.submissions.filter (fun s => s.challenge == name && s.correct)).foldl
              (fun us s => updateUser s.userId
                (fun u => { u with points := u.points - doc.points }) us)
              db.users := by
        simp [delete_challenge, hdoc]
      have hfl : (delete_challenge db name).1.flags
          = db.flags.filter (fun f => f.name != name) := by
        simp only [delete_challenge, hdoc]
        exact eraseFlag_eq_filter db.flags name hflags
      have hsub : (delete_challenge db name).1.submissions
          = db.submissions.filter (fun s => s.challenge != name) := by
        simp [delete_challenge, hdoc]
      unfold ScoreInv
      intro uid' hmem
      rw [hus, foldDec_map_id] at hmem
      have hpres : (findUser db.users uid').isSome = true :=
        findUser_isSome_of_mem db.users uid' hmem
      simp only [pointsOf, solvedSum]
      rw [hus, hfl, hsub,
        pointsIn_foldDec doc.points
          (db.submissions.filter (fun s => s.challenge == name && s.correct)) db.users uid' hpres,
        List.countP_filter]
      have hcong : ∀ f ∈ db.flags.filter (fun f => f.name != name),
          solvedChal (db.submissions.filter (fun s => s.challenge != name)) uid' f.name
          = solvedChal db.submissions uid' f.name := by
        intro f hf
        have hne : f.name ≠ name := by
          simpa [bne_iff_ne] using (List.mem_filter.mp hf).2
        exact solvedChal_filter_ne db.submissions uid' name f.name hne
      rw [List.filter_congr hcong,
        sum_filter_drop db.flags name (fun c => solvedChal db.submissions uid' c),
        filter_name_eq_of_find db.flags name doc hflags hfind]
      have hbase := hinv uid' hmem
      simp only [pointsOf, solvedSum] at hbase
      rw [← hbase]
      by_cases hsv : solvedChal db.submissions uid' name = true
      · have hcount : db.submissions.countP
            (fun s => s.userId == uid' && (s.challenge == name && s.correct)) = 1 := by
          have hpos : 0 < db.submissions.countP
              (fun s => s.userId == uid' && (s.challenge == name && s.correct)) := by
            rw [List.countP_pos_iff]
            simpa [solvedChal, List.any_eq_true] using hsv
          have h1 := honce uid'
          omega
        rw [hcount]
        have hkeep : [doc].filter (fun f => solvedChal db.submissions uid' f.name) = [doc] := by
          simp [List.filter_cons, hdn, hsv]
        rw [hkeep]
        simp
      · have hsv' : solvedChal db.submissions uid' name = false := by
          simpa using hsv
        have hcount : db.submissions.countP
            (fun s => s.userId == uid' && (s.challenge == name && s.correct)) = 0 := by
          rw [List.countP_eq_zero]
          intro s hs hp
          have : solvedChal db.submissions uid' name = true := by
            rw [solvedChal, List.any_eq_true]
            exact ⟨s, hs, hp⟩
          rw [this] at hsv'
          exact Bool.noConfusion hsv'
        rw [hcount]
        have hkeep : [doc].filter (fun f => solvedChal db.submissions uid' f.name) = [] := by
          simp [List.filter_cons, hdn, hsv']
        rw [hkeep]
        simp

/-- A two-challenge, two-user store satisfying the scoring invariant: user 1
solved "B" (70 points), user 2 has only a wrong attempt at "A". -/
def c1db : DB :=
  { flags := [⟨"A", "fa", 30, "L", "Web", "Easy"⟩, ⟨"B", "fb", 70, "L", "Pwn", "Hard"⟩]
    users := [⟨1, "alice", 70, some 2⟩, ⟨2, "bob", 0, none⟩]
    submissions := [⟨1, "B", "fb", true, 2⟩, ⟨2, "A", "xx", false, 3⟩] }

/-- Concrete instance of C1: the invariant survives a correct submission by
user 2 on "A" and a completed deletion of "B". -/
theorem C1_points_invariant_witness :
    ScoreInv (receive_flag c1db 2 "A" "fa" 5).1
    ∧ ScoreInv (delete_challenge c1db "B").1 := by
  have hflags : (c1db.flags.map (fun f => f.name)).Nodup := by decide
  have hinv : ScoreInv c1db := by
    unfold ScoreInv
    decide
  have h := C1_points_invariant c1db hflags hinv
  refine ⟨h.1 2 "A" "fa" 5 (by unfold userPresent; decide) (by decide), ?_⟩
  exact h.2 "B" (countP_le_one_of_each c1db.submissions "B" (by decide))

/-- The store after user 1 legitimately solves "A" (worth 30): one correct
row, 30 points, the scoring invariant holds. -/
def c1cx : DB :=
  (receive_flag
    { flags := [⟨"A", "fa", 30, "L", "Web", "Easy"⟩]
      users := [⟨1, "alice", 0, none⟩]
      submissions := [] }
    1 "A" "fa" 1).1

/-- C1 fails on the code as stated: `receive_flag` never re-checks whether
the submitting user already solved the challenge (and `select_challenge`
accepts a still-live stale keyboard button for it), so a second correct
submission for "A" is reachable and double-increments the points —
immediately after that call user 1 holds 60 points while the solved sum is
30, violating the invariant although it held before the call. -/
theorem C1_points_counterexample :
    ScoreInv c1cx
    ∧ solvedChal c1cx.submissions 1 "A" = true
    ∧ pointsOf (receive_flag c1cx 1 "A" "fa" 9).1 1 = 60
    ∧ solvedSum (receive_flag c1cx 1 "A" "fa" 9).1 1 = 30
    ∧ ¬ ScoreInv (receive_flag c1cx 1 "A" "fa" 9).1 := by
  refine ⟨?_, by decide, by decide, by decide, ?_⟩
  · unfold ScoreInv
    decide
  · unfold ScoreInv
    decide

/-! ## The leaderboard -/

/-- BSON ascending comparison on a possibly-missing timestamp field: a
missing (null) value sorts before every present value. -/
def optLE : Option Nat → Option Nat → Bool
  | none, _ => true
  | some _, none => false
  | some x, some y => decide (x ≤ y)

/-- The compound key of
`users.find().sort([("points", -1), ("last_correct_submission", 1)])`:
points descending, then the stored `last_correct_submission` ascending with
missing values first. -/
def leadLE (a b : UserRec) : Bool :=
  if a.points = b.points then optLE a.lastCorrect b.lastCorrect
  else decide (b.points < a.points)

/-- Shallow embedding of the `leaderboard_start` query: the user documents
sorted by the compound key. -/
def leaderboard (db : DB) : List UserRec :=
  db.users.insertionSort (fun a b => leadLE a b = true)

theorem optLE_total (x y : Option Nat) : optLE x y = true ∨ optLE y x = true := by
  cases x <;> cases y <;> simp [optLE]
  all_goals omega

theorem optLE_trans (x y z : Option Nat) (h1 : optLE x y = true) (h2 : optLE y z = true) :
    optLE x z = true := by
  cases x <;> cases y <;> cases z <;> simp_all [optLE]
  all_goals omega

theorem leadLE_total (a b : UserRec) : leadLE a b = true ∨ leadLE b a = true := by
  unfold leadLE
  by_cases h : a.points = b.points
  · rw [if_pos h, if_pos h.symm]
    exact optLE_total _ _
  · rw [if_neg h, if_neg (fun he => h he.symm)]
    simp only [decide_eq_true_eq]
    omega

theorem leadLE_trans (a b c : UserRec) (h1 : leadLE a b = true) (h2 : leadLE b c = true) :
    leadLE a c = true := by
  unfold leadLE at h1 h2 ⊢
  by_cases hab : a.points = b.points <;> by_cases hbc : b.points = c.points
  · have hac : a.points = c.points := hab.trans hbc
    rw [if_pos hab] at h1
    rw [if_pos hbc] at h2
    rw [if_pos hac]
    exact optLE_trans _ _ _ h1 h2
  · have hac : a.points ≠ c.points := fun he => hbc (hab.symm.trans he)
    rw [if_neg hbc] at h2
    rw [if_neg hac]
    simp only [decide_eq_true_eq] at h2 ⊢
    omega
  · rw [if_neg hab] at h1
    simp only [decide_eq_true_eq] at h1
    have hac : a.points ≠ c.points := fun he => hab (by omega)
    rw [if_neg hac]
    simp only [decide_eq_true_eq]
    omega
  · rw [if_neg hab] at h1
    rw [if_neg hbc] at h2
    simp only [decide_eq_true_eq] at h1 h2
    have hac : a.points ≠ c.points := by omega
    rw [if_neg hac]
    simp only [decide_eq_true_eq]
    omega

instance : IsTotal UserRec (fun a b => leadLE a b = true) := ⟨leadLE_total⟩

instance : IsTrans UserRec (fun a b => leadLE a b = true) := ⟨leadLE_trans⟩

theorem leadLE_iff (a b : UserRec) :
    leadLE a b = true
      ↔ (b.points < a.points
          ∨ (a.points = b.points ∧ optLE a.lastCorrect b.lastCorrect = true)) := by
  unfold leadLE
  by_cases h : a.points = b.points
  · simp [h]
  · simp [h]

/-- Modelled from the spec wording: the timestamp of the user's first-ever
correct submission, `none` when they have none. -/
def firstCorrectTime (db : DB) (uid : Nat) : Option Nat :=
  ((db.submissions.filter (fun s => s.userId == uid && s.correct)).map
    (fun s => s.timestamp)).foldr
    (fun t acc =>
      match acc with
      | none => some t
      | some m => some (min t m))
    none

/-- Modelled from the spec wording: the claimed tie-break — first-ever
correct submission ascending, never-solved users treated as infinitely
late. -/
def specTieLE (db : DB) (a b : UserRec) : Bool :=
  match firstCorrectTime db a.id, firstCorrectTime db b.id with
  | some x, some y => decide (x ≤ y)
  | some _, none => true
  | none, none => true
  | none, some _ => false

/-- Modelled from the spec wording: the leaderboard ordering C4 claims. -/
def specLeaderboardOrdered (db : DB) (l : List UserRec) : Prop :=
  l.Pairwise (fun a b =>
    b.points < a.points ∨ (a.points = b.points ∧ specTieLE db a b = true))

/-- Catalog and two fresh users for the tie-break counterexample. -/
def c4base : DB :=
  { flags := [⟨"X", "fx", 60, "L", "Web", "Easy"⟩, ⟨"Y", "fy", 40, "L", "Web", "Easy"⟩,
              ⟨"Z", "fz", 100, "L", "Web", "Easy"⟩]
    users := [⟨1, "alice", 0, none⟩, ⟨2, "bob", 0, none⟩]
    submissions := [] }

/-- The store after user 1 solves X at t=1 and Y at t=10 and user 2 solves Z
at t=3: both hold 100 points; user 1's first correct submission is earlier,
user 2's last correct submission is earlier. -/
def c4db : DB :=
  (receive_flag
    ((receive_flag ((receive_flag c4base 1 "X" "fx" 1).1) 2 "Z" "fz" 3).1)
    1 "Y" "fy" 10).1

/-- C4 fails on the code: the query sorts by `last_correct_submission` — the
most recent correct submission, not the first-ever one. In `c4db` users 1 and
2 both hold 100 points, user 1's first correct submission (t=1) precedes user
2's (t=3), yet the leaderboard lists user 2 first. -/
theorem C4_leaderboard_counterexample :
    (leaderboard c4db).map (fun u => u.id) = [2, 1]
    ∧ pointsOf c4db 1 = pointsOf c4db 2
    ∧ firstCorrectTime c4db 1 = some 1
    ∧ firstCorrectTime c4db 2 = some 3
    ∧ ¬ specLeaderboardOrdered c4db (leaderboard c4db) := by
  refine ⟨by decide, by decide, by decide, by decide, ?_⟩
  intro h
  unfold specLeaderboardOrdered at h
  have hl : leaderboard c4db
      = [⟨2, "bob", 100, some 3⟩, ⟨1, "alice", 100, some 10⟩] := by decide
  rw [hl] at h
  have h2 := List.rel_of_pairwise_cons h (List.mem_singleton.mpr rfl)
  revert h2
  decide

/-- C4 amended: the leaderboard is a permutation of the user documents
ordered by points descending, ties broken by the stored
`last_correct_submission` (the user's most recent correct submission)
ascending, with users who never submitted correctly placed first among
equal-point peers (BSON sorts the missing field before any value). -/
theorem C4_leaderboard_amended (db : DB) :
    (leaderboard db).Perm db.users
    ∧ (leaderboard db).Pairwise (fun a b =>
        b.points < a.points
        ∨ (a.points = b.points ∧ optLE a.lastCorrect b.lastCorrect = true)) := by
  constructor
  · exact List.perm_insertionSort _ db.users
  · have hs := List.sorted_insertionSort (fun a b => leadLE a b = true) db.users
    exact List.Pairwise.imp (fun hab => (leadLE_iff _ _).mp hab) hs

/-! ## The bloods solver directory -/

/-- `users.find_one` then `.get("username", "Unknown")`. -/
def usernameOf (db : DB) (uid : Nat) : String :=
  match findUser db.users uid with
  | some u => u.username
  | none => "Unknown"

/-- The correct submissions of a challenge sorted by `timestamp` ascending
(`submissions.find({"challenge": chal, "correct": True}).sort("timestamp", 1)`). -/
def sortedCorrectSubs (db : DB) (chal : String) : List Submission :=
  (db.submissions.filter (fun s => s.challenge == chal && s.correct)).insertionSort
    (fun a b => a.timestamp ≤ b.timestamp)

/-- The Python seen-set comprehension: drop entries already seen, keeping the
first occurrence of each value. -/
def dedupSeen [DecidableEq α] (seen : List α) : List α → List α
  | [] => []
  | a :: l => if a ∈ seen then dedupSeen seen l else a :: dedupSeen (a :: seen) l

/-- Shallow embedding of `bloods_show_solvers`: the usernames of the correct
submissions in timestamp order, first occurrences kept; the head is the entry
labeled "firstblood". -/
def bloods_show_solvers (db : DB) (chal : String) : List String :=
  dedupSeen [] ((sortedCorrectSubs db chal).map (fun s => usernameOf db s.userId))

/-- Shallow embedding of the `$addToSet`/`$size` pipeline of `bloods_start`:
the number of distinct user ids with a correct submission for the
challenge. -/
def solverCount (db : DB) (chal : String) : Nat :=
  (dedupSeen []
    ((db.submissions.filter (fun s => s.challenge == chal && s.correct)).map
      (fun s => s.userId))).length

/-- Modelled from the spec wording: the distinct solver ids of the challenge
in order of each user's first correct submission. -/
def specSolverIds (db : DB) (chal : String) : List Nat :=
  dedupSeen [] ((sortedCorrectSubs db chal).map (fun s => s.userId))

theorem dedupSeen_mem [DecidableEq α] (seen l : List α) (a : α) :
    a ∈ dedupSeen seen l ↔ a ∈ l ∧ a ∉ seen := by
  induction l generalizing seen with
  | nil => simp [dedupSeen]
  | cons b rest ih =>
    by_cases hb : b ∈ seen
    · rw [dedupSeen, if_pos hb, ih]
      constructor
      · exact fun ⟨h1, h2⟩ => ⟨List.mem_cons_of_mem b h1, h2⟩
      · rintro ⟨h1, h2⟩
        rcases List.mem_cons.mp h1 with he | hr
        · exact absurd (he ▸ hb) h2
        · exact ⟨hr, h2⟩
    · rw [dedupSeen, if_neg hb]
      by_cases hab : a = b
      · subst hab
        simp [hb]
      · rw [List.mem_cons]
        constructor
        · rintro (he | hd)
          · exact absurd he hab
          · have := ih (b :: seen) |>.mp hd
            exact ⟨List.mem_cons_of_mem b this.1,
              fun hs => this.2 (List.mem_cons_of_mem b hs)⟩
        · rintro ⟨h1, h2⟩
          rcases List.mem_cons.mp h1 with he | hr
          · exact absurd he hab
          · refine Or.inr ((ih (b :: seen)).mpr ⟨hr, ?_⟩)
            intro hs
            rcases List.mem_cons.mp hs with he | hs'
            · exact hab he
            · exact h2 hs'

theorem dedupSeen_nodup [DecidableEq α] (seen l : List α) : (dedupSeen seen l).Nodup := by
  induction l generalizing seen with
  | nil => simp [dedupSeen]
  | cons b rest ih =>
    by_cases hb : b ∈ seen
    · rw [dedupSeen, if_pos hb]
      exact ih seen
    · rw [dedupSeen, if_neg hb]
      refine List.nodup_cons.mpr ⟨?_, ih (b :: seen)⟩
      rw [dedupSeen_mem]
      rintro ⟨_, h2⟩
      exact h2 (List.mem_cons_self b seen)

/-- Deduplication commutes with an injective relabeling. -/
theorem dedupSeen_map_inj [DecidableEq α] [DecidableEq β] (f : α → β) (seen l : List α)
    (hinj : ∀ x ∈ seen ++ l, ∀ y ∈ seen ++ l, f x = f y → x = y) :
    dedupSeen (seen.map f) (l.map f) = (dedupSeen seen l).map f := by
  induction l generalizing seen with
  | nil => simp [dedupSeen]
  | cons b rest ih =>
    have hsub : ∀ x ∈ seen ++ rest, x ∈ seen ++ b :: rest := by
      intro x hx
      rcases List.mem_append.mp hx with h | h
      · exact List.mem_append.mpr (Or.inl h)
      · exact List.mem_append.mpr (Or.inr (List.mem_cons_of_mem b h))
    by_cases hb : b ∈ seen
    · have hfb : f b ∈ seen.map f := List.mem_map_of_mem f hb
      rw [List.map_cons, dedupSeen, if_pos hfb, dedupSeen, if_pos hb]
      exact ih seen (fun x hx y hy => hinj x (hsub x hx) y (hsub y hy))
    · have hfb : f b ∉ seen.map f := by
        intro hmem
        obtain ⟨x, hx, hfx⟩ := List.mem_map.mp hmem
        have hxb : x = b := hinj x (List.mem_append.mpr (Or.inl hx)) b
          (List.mem_append.mpr (Or.inr (List.mem_cons_self b rest))) hfx
        exact hb (hxb ▸ hx)
      rw [List.map_cons, dedupSeen, if_neg hfb, dedupSeen, if_neg hb, List.map_cons]
      have hseen : f b :: seen.map f = (b :: seen).map f := rfl
      rw [hseen, ih (b :: seen) ?_]
      intro x hx y hy
      have hx' : x ∈ seen ++ b :: rest := by
        rcases List.mem_append.mp hx with h | h
        · rcases List.mem_cons.mp h with he | hs
          · exact List.mem_append.mpr (Or.inr (he ▸ List.mem_cons_self b rest))
          · exact List.mem_append.mpr (Or.inl hs)
        · exact List.mem_append.mpr (Or.inr (List.mem_cons_of_mem b h))
      have hy' : y ∈ seen ++ b :: rest := by
        rcases List.mem_append.mp hy with h | h
        · rcases List.mem_cons.mp h with he | hs
          · exact List.mem_append.mpr (Or.inr (he ▸ List.mem_cons_self b rest))
          · exact List.mem_append.mpr (Or.inl hs)
        · exact List.mem_append.mpr (Or.inr (List.mem_cons_of_mem b h))
      exact hinj x hx' y hy'

/-- The number of distinct values is permutation-invariant. -/
theorem dedupSeen_length_perm [DecidableEq α] (l l' : List α) (h : l.Perm l') :
    (dedupSeen [] l).length = (dedupSeen [] l').length := by
  have h1 : (dedupSeen [] l).Perm (dedupSeen [] l') := by
    apply List.perm_of_nodup_nodup_toFinset_eq (dedupSeen_nodup _ _) (dedupSeen_nodup _ _)
    ext a
    simp [List.mem_toFinset, dedupSeen_mem, h.mem_iff]
  exact h1.length_eq

/-- Two users whose stored username is the same "Unknown", both solving
challenge `C`. -/
def c5db : DB :=
  { flags := [⟨"C", "fc", 10, "L", "Web", "Easy"⟩]
    users := [⟨1, "Unknown", 10, some 1⟩, ⟨2, "Unknown", 10, some 2⟩]
    submissions := [⟨1, "C", "fc", true, 1⟩, ⟨2, "C", "fc", true, 2⟩] }

/-- C5 fails on the code: the solver directory deduplicates by displayed
username while the badge count deduplicates by user id. With two distinct
solvers both stored as "Unknown", the directory lists one entry while the
badge counts two distinct solvers. -/
theorem C5_bloods_counterexample :
    bloods_show_solvers c5db "C" = ["Unknown"]
    ∧ solverCount c5db "C" = 2
    ∧ (bloods_show_solvers c5db "C").length ≠ solverCount c5db "C" := by
  refine ⟨by decide, by decide, by decide⟩

/-- C5 amended: when the solvers of the challenge carry pairwise-distinct
stored usernames, the directory is exactly the usernames of the distinct
solver ids ordered by each user's first correct submission for the challenge
(its head, the earliest solver, is the one labeled first blood), and the
badge count equals the number of those distinct solvers. -/
theorem C5_bloods_amended (db : DB) (chal : String)
    (hinj : ∀ i ∈ (db.submissions.filter
          (fun s => s.challenge == chal && s.correct)).map (fun s => s.userId),
        ∀ j ∈ (db.submissions.filter
          (fun s => s.challenge == chal && s.correct)).map (fun s => s.userId),
        usernameOf db i = usernameOf db j → i = j) :
    bloods_show_solvers db chal = (specSolverIds db chal).map (usernameOf db)
    ∧ solverCount db chal = (specSolverIds db chal).length := by
  have hperm : ((sortedCorrectSubs db chal).map (fun s => s.userId)).Perm
      ((db.submissions.filter (fun s => s.challenge == chal && s.correct)).map
        (fun s => s.userId)) :=
    (List.perm_insertionSort _ _).map _
  have hinj' : ∀ x ∈ ([] : List Nat) ++ (sortedCorrectSubs db chal).map (fun s => s.userId),
      ∀ y ∈ ([] : List Nat) ++ (sortedCorrectSubs db chal).map (fun s => s.userId),
      usernameOf db x = usernameOf db y → x = y := by
    intro x hx y hy
    exact hinj x (hperm.mem_iff.mp (by simpa using hx))
      y (hperm.mem_iff.mp (by simpa using hy))
  constructor
  · have hmm : (sortedCorrectSubs db chal).map (fun s => usernameOf db s.userId)
        = ((sortedCorrectSubs db chal).map (fun s => s.userId)).map (usernameOf db) := by
      rw [List.map_map]
      rfl
    rw [bloods_show_solvers, hmm, specSolverIds,
      ← dedupSeen_map_inj (usernameOf db) [] _ hinj']
    rfl
  · rw [solverCount, specSolverIds]
    exact dedupSeen_length_perm _ _ hperm.symm

/-- The spec's own bloods example: user P (id 1) solves "X" at t=1 and t=3,
user Q (id 2) at t=2. -/
def c5wdb : DB :=
  { flags := [⟨"X", "fx", 10, "L", "Web", "Easy"⟩]
    users := [⟨1, "P", 10, some 3⟩, ⟨2, "Q", 10, some 2⟩]
    submissions := [⟨1, "X", "fx", true, 1⟩, ⟨2, "X", "fx", true, 2⟩,
                    ⟨1, "X", "fx", true, 3⟩] }

/-- Concrete instance of the amended C5: solver order is P then Q, P is the
first blood, and the count is 2 although P submitted correctly twice. -/
theorem C5_bloods_amended_witness :
    bloods_show_solvers c5wdb "X" = ["P", "Q"]
    ∧ (bloods_show_solvers c5wdb "X").head? = some "P"
    ∧ solverCount c5wdb "X" = 2 := by
  have h := C5_bloods_amended c5wdb "X" (by decide)
  have he : bloods_show_solvers c5wdb "X" = ["P", "Q"] := h.1.trans (by decide)
  refine ⟨he, ?_, h.2.trans (by decide)⟩
  rw [he]
  rfl

end Botospere
